import Mathlib

/-!
Shallow embedding of `timeline_mapper.py` (src/windows/rf-timing-analyzer.py):
band/width classification, beacon-row extraction, the acoustic peak
de-duplication loop, timestamp alignment, motif matching and triplet mining,
together with theorems checking the specification's claims about them.

Python `str` is modelled as `List Char` (the program only manipulates
Basic-Latin text), Python `float` as `ℚ`, `None` as `Option.none`.
-/

namespace RFTiming

/-- Python `str` modelled as a list of characters. -/
abbrev Str := List Char

/-- Python `str.__contains__`: `needle in hay` (substring test). -/
def strHas (hay needle : Str) : Bool :=
  hay.tails.any (fun t => needle.isPrefixOf t)

/-- ASCII whitespace recognised by Python `str.strip()` / `int()`. -/
def pyIsSpace (c : Char) : Bool :=
  c = ' ' || c = '\t' || c = '\n' || c = '\r' || c = '\x0b' || c = '\x0c'

/-- Python `str.strip()`: drop leading and trailing whitespace. -/
def pyStrip (s : Str) : Str :=
  ((s.dropWhile pyIsSpace).reverse.dropWhile pyIsSpace).reverse

/-- Python `str.lower()` restricted to Basic Latin: lower-case each character. -/
def pyLower (s : Str) : Str := s.map Char.toLower

/-- Body of a Python integer literal after an optional sign: digits possibly
separated by single underscores (`digit+ ( underscore digit+ )*`).  The Bool
state records whether the previous character was a digit (so an underscore is
currently permitted); it starts as `false`. -/
def pyIntRun : Bool → Str → Bool
  | prevDigit, [] => prevDigit
  | prevDigit, c :: rest =>
    if c.isDigit then pyIntRun true rest
    else if prevDigit && c = '_' then pyIntRun false rest
    else false

/-- Decimal value of the digits of `s` (underscores are skipped). -/
def digitsVal (s : Str) : ℤ :=
  s.foldl (fun n c => if c.isDigit then 10 * n + ((c.toNat : ℤ) - 48) else n) 0

/-- Python `int(s)` on a string: strip whitespace, optional sign, then an
underscore-separated digit run; `none` models a raised `ValueError`. -/
def pyInt? (s : Str) : Option ℤ :=
  match pyStrip s with
  | [] => none
  | c :: r =>
    if c = '+' then if pyIntRun false r then some (digitsVal r) else none
    else if c = '-' then if pyIntRun false r then some (-digitsVal r) else none
    else if pyIntRun false (c :: r) then some (digitsVal (c :: r)) else none

/-- Python `re.search` with pattern `(\d+)` followed by `.group(1)`: the
leftmost maximal run of decimal digits, or `none` when no digit occurs. -/
def reFirstDigits : Str → Option Str
  | [] => none
  | c :: rest =>
    if c.isDigit then some (c :: rest.takeWhile Char.isDigit) else reFirstDigits rest

/-- Width label `'20'`. -/
def s20 : Str := "20".data
/-- Width label `'40'`. -/
def s40 : Str := "40".data
/-- Width label `'80'`. -/
def s80 : Str := "80".data
/-- Width label `'160'`. -/
def s160 : Str := "160".data
/-- Width label `'5'`. -/
def s5 : Str := "5".data
/-- Width label `'10'`. -/
def s10 : Str := "10".data
/-- Band label `'2g4'`. -/
def s2g4 : Str := "2g4".data
/-- Band label `'5g'`. -/
def s5g : Str := "5g".data
/-- Band label `'6g'`. -/
def s6g : Str := "6g".data

/-- The dictionary `{0:'20', 1:'40', 2:'80', 3:'160', 4:'80', 5:'5', 6:'10'}`
with `.get(i)` access (absent key yields `None`). -/
def mappingGet (i : ℤ) : Option Str :=
  if i = 0 then some s20
  else if i = 1 then some s40
  else if i = 2 then some s80
  else if i = 3 then some s160
  else if i = 4 then some s80
  else if i = 5 then some s5
  else if i = 6 then some s10
  else none

/-- `_width_from_ws` from the source: `None`/empty input gives `None`; an
input accepted by `int()` is looked up in the enum table; otherwise the first
embedded digit run of the text is returned (or `None` when there is none). -/
def _width_from_ws : Option Str → Option Str
  | none => none
  | some s =>
    if s = [] then none
    else
      match pyInt? s with
      | some i => mappingGet i
      | none => reFirstDigits s

/-- Modelled from the claim (C1's reading of `_width_from_ws`): integer codes
0..6 map through the enum table, and EVERY other non-empty input falls back to
its first embedded digit run. -/
def claimWidth : Option Str → Option Str
  | none => none
  | some s =>
    if s = [] then none
    else
      match pyInt? s with
      | some 0 => some s20
      | some 1 => some s40
      | some 2 => some s80
      | some 3 => some s160
      | some 4 => some s80
      | some 5 => some s5
      | some 6 => some s10
      | _ => reFirstDigits s

/-- The amended reading of `_width_from_ws`: integer codes 0..6 map to their
fixed labels, any OTHER input accepted by `int()` yields `none`, and only
inputs rejected by `int()` fall back to their first embedded digit run
(`none` for empty or absent input). -/
def amendedWidth : Option Str → Option Str
  | none => none
  | some s =>
    match pyInt? s with
    | some i =>
      if i = 0 then some s20
      else if i = 1 then some s40
      else if i = 2 then some s80
      else if i = 3 then some s160
      else if i = 4 then some s80
      else if i = 5 then some s5
      else if i = 6 then some s10
      else none
    | none => if s = [] then none else reFirstDigits s

/-- `_band_from_freq` from the source: three inclusive ranges tried in order
2g4, 5g, 6g; `None` outside all of them or on absent input. -/
def _band_from_freq : Option ℚ → Option Str
  | none => none
  | some f =>
    if 2400000000 ≤ f ∧ f ≤ 2500000000 then some s2g4
    else if 5150000000 ≤ f ∧ f ≤ 5945000000 then some s5g
    else if 5925000000 ≤ f ∧ f ≤ 7125000000 then some s6g
    else none

/-- Motif token `'ultra19'`. -/
def tUltra19 : Str := "ultra19".data
/-- Label prefix `'ultra_'`. -/
def pUltra : Str := "ultra_".data
/-- Token prefix `'wifi5'`. -/
def pW5 : Str := "wifi5".data
/-- Token prefix `'wifi6'`. -/
def pW6 : Str := "wifi6".data
/-- Token prefix `'wifi2'`. -/
def pW2 : Str := "wifi2".data
/-- Label prefix `'wifi_beacon_5g_'`. -/
def pB5g : Str := "wifi_beacon_5g_".data
/-- Label prefix `'wifi_beacon_6g_'`. -/
def pB6g : Str := "wifi_beacon_6g_".data
/-- Label prefix `'wifi_beacon_2g4_'`. -/
def pB2g4 : Str := "wifi_beacon_2g4_".data
/-- Substring `'_20'` used for bandwidth discrimination. -/
def sU20 : Str := "_20".data
/-- Frame-subtype text `'Beacon'`. -/
def sBeacon : Str := "Beacon".data
/-- Frame-subtype numeric code `'8'`. -/
def s8 : Str := "8".data
/-- Source tag `'wifi'`. -/
def srcWifi : Str := "wifi".data
/-- Source tag `'audio'`. -/
def srcAudio : Str := "audio".data
/-- Acoustic event label `'ultra_18_21khz'`. -/
def lblUltra : Str := "ultra_18_21khz".data
/-- Meta key `'peak_db'`. -/
def kPeakDb : Str := "peak_db".data
/-- Meta key `'ssid'`. -/
def kSsid : Str := "ssid".data
/-- Meta key `'freq_hz'`. -/
def kFreqHz : Str := "freq_hz".data
/-- Meta key `'width_mhz'`. -/
def kWidthMhz : Str := "width_mhz".data
/-- Label piece `'wifi_beacon_'`. -/
def pBeacon : Str := "wifi_beacon_".data
/-- Separator `'_'`. -/
def sUnd : Str := "_".data

/-- The `Event` dataclass: timestamp (epoch seconds), source tag, label, and
the `meta` string-to-string mapping (a Python dict, modelled as an ordered
association list). -/
structure Event where
  ts : ℚ
  source : Str
  label : Str
  meta : List (Str × Str)
  deriving DecidableEq

instance : Inhabited Event := ⟨⟨0, [], [], []⟩⟩

/-- An ordered label triple, the miner's counter key. -/
abbrev Trip := Str × Str × Str

/-- The token-to-label rule `match` defined inside `find_motif`: the token is
lower-cased, then compared against the fixed pattern rules. -/
def matchTok (label token : Str) : Bool :=
  let t := pyLower token
  if t = tUltra19 then pUltra.isPrefixOf label
  else if pW5.isPrefixOf t then
    pB5g.isPrefixOf label && (if strHas t s20 then strHas label sU20 else true)
  else if pW6.isPrefixOf t then
    pB6g.isPrefixOf label && (if strHas t s20 then strHas label sU20 else true)
  else if pW2.isPrefixOf t then pB2g4.isPrefixOf label
  else decide (label = t)

/-- Modelled from the claim (C2's reading of the matcher): the pattern rules
applied to the token text exactly as given, with no lower-casing step. -/
def specMatchRaw (label token : Str) : Bool :=
  if token = tUltra19 then pUltra.isPrefixOf label
  else if pW5.isPrefixOf token then
    pB5g.isPrefixOf label && (if strHas token s20 then strHas label sU20 else true)
  else if pW6.isPrefixOf token then
    pB6g.isPrefixOf label && (if strHas token s20 then strHas label sU20 else true)
  else if pW2.isPrefixOf token then pB2g4.isPrefixOf label
  else decide (label = token)

/-- Inner `while k` loop of `find_motif`: scan events after `b` while they are
within `gap` of `b`, keeping those whose label matches `tok2`. -/
def motifScanK (b : Event) (tok2 : Str) (gap : ℚ) (l : List Event) : List Event :=
  (l.takeWhile (fun c => decide (c.ts - b.ts ≤ gap))).filter (fun c => matchTok c.label tok2)

/-- Middle `while j` loop of `find_motif`: scan events after `a` while they
are within `gap` of `a`; each match of `tok1` triggers the inner scan. -/
def motifScanJ (a : Event) (tok1 tok2 : Str) (gap : ℚ) : List Event → List (Event × Event × Event)
  | [] => []
  | b :: rest =>
    if b.ts - a.ts ≤ gap then
      (if matchTok b.label tok1 then (motifScanK b tok2 gap rest).map (fun c => (a, b, c)) else [])
        ++ motifScanJ a tok1 tok2 gap rest
    else []

/-- `find_motif` over an (already time-sorted) event list, for the 3-token
motif `[tok0, tok1, tok2]`. -/
def find_motif (ev : List Event) (tok0 tok1 tok2 : Str) (gap : ℚ) : List (Event × Event × Event) :=
  match ev with
  | [] => []
  | a :: rest =>
    (if matchTok a.label tok0 then motifScanJ a tok1 tok2 gap rest else [])
      ++ find_motif rest tok0 tok1 tok2 gap

/-- Innermost `k` loop of `mine_top_triplets`: scan events after `b` and
break as soon as the window (anchored at `a`) is exceeded. -/
def mineScanK (a : Event) (bLabel : Str) (w : ℚ) (l : List Event) : List Trip :=
  (l.takeWhile (fun c => decide (c.ts - a.ts ≤ w))).map (fun c => (a.label, bLabel, c.label))

/-- Middle `j` loop of `mine_top_triplets`: break as soon as the window
(anchored at `a`) is exceeded. -/
def mineScanJ (a : Event) (w : ℚ) : List Event → List Trip
  | [] => []
  | b :: rest =>
    if b.ts - a.ts ≤ w then mineScanK a b.label w rest ++ mineScanJ a w rest else []

/-- The sequence of label triples visited by `mine_top_triplets`'s three
nested loops (with both early-exit breaks) over an already-sorted list. -/
def mineTriples (w : ℚ) : List Event → List Trip
  | [] => []
  | a :: rest => mineScanJ a w rest ++ mineTriples w rest

/-- One `counts[trip] = counts.get(trip, 0) + 1` update on an
insertion-ordered dict. -/
def bump : List (Trip × ℕ) → Trip → List (Trip × ℕ)
  | [], t => [(t, 1)]
  | (t', n) :: rest, t => if t = t' then (t', n + 1) :: rest else (t', n) :: bump rest t

/-- Fold a visit sequence of triples into the `counts` dict. -/
def tally (l : List Trip) : List (Trip × ℕ) := l.foldl bump []

/-- The `counts` mapping built by `mine_top_triplets` over an already-sorted
event list. -/
def mineCounts (w : ℚ) (ev : List Event) : List (Trip × ℕ) := tally (mineTriples w ev)

/-- Structural concatenation of lists, `flatMapL f [a₁,…,aₙ] = f a₁ ++ … ++ f aₙ`. -/
def flatMapL (f : α → List β) : List α → List β
  | [] => []
  | a :: l => f a ++ flatMapL f l

/-- All ordered pairs `(b, c)` with `b` before `c` in the list, combined by
`g` (structural form). -/
def pairEnum (g : α → α → Option γ) : List α → List γ
  | [] => []
  | b :: rest => rest.filterMap (g b) ++ pairEnum g rest

/-- All ordered triples `(a, b, c)` in list order, combined by `f`
(structural form). -/
def triEnum (f : α → α → α → Option γ) : List α → List γ
  | [] => []
  | a :: rest => pairEnum (f a) rest ++ triEnum f rest

/-- The naive index enumeration: `i` over `range(n)`, `j` over
`range(i+1, n)`, `k` over `range(j+1, n)` — every index triple `i < j < k`
in lexicographic order — combined by `f`. -/
def triEnumIx [Inhabited α] (f : α → α → α → Option γ) (l : List α) : List γ :=
  flatMapL (fun i =>
    flatMapL (fun j =>
      (List.range' (j + 1) (l.length - (j + 1))).filterMap (fun k =>
        f (l.getD i default) (l.getD j default) (l.getD k default)))
      (List.range' (i + 1) (l.length - (i + 1))))
    (List.range l.length)

/-- The miner's keep-condition and payload: keep `i < j < k` iff
`events[k].ts - events[i].ts ≤ w`, keyed by the ordered label triple. -/
def mineCond (w : ℚ) (a b c : Event) : Option Trip :=
  if c.ts - a.ts ≤ w then some (a.label, b.label, c.label) else none

/-- The motif matcher's keep-condition and payload: all three labels match
the tokens in order and both consecutive gaps are within `gap`. -/
def motifCond (tok0 tok1 tok2 : Str) (gap : ℚ) (a b c : Event) : Option (Event × Event × Event) :=
  if matchTok a.label tok0 ∧ matchTok b.label tok1 ∧ matchTok c.label tok2
      ∧ b.ts - a.ts ≤ gap ∧ c.ts - b.ts ≤ gap then
    some (a, b, c)
  else none

/-- Acoustic detection event as emitted by `load_audio_events`. -/
def mkAudioEvent (ts : ℚ) (db : Str) : Event :=
  ⟨ts, srcAudio, lblUltra, [(kPeakDb, db)]⟩

/-- The greedy de-duplication loop of `load_audio_events`: walk candidate
`(time, level-text)` pairs left to right, accepting a candidate iff its time
is at least `minSep` past `lastT`, the most recently accepted time
(initialised to the sentinel `-1e9`). -/
def dedupPeaks (minSep : ℚ) : ℚ → List (ℚ × Str) → List Event
  | _, [] => []
  | lastT, (ts, db) :: rest =>
    if ts - lastT ≥ minSep then mkAudioEvent ts db :: dedupPeaks minSep ts rest
    else dedupPeaks minSep lastT rest

/-- Modelled from the claim (C6, amended): greedy left-to-right
de-duplication over candidate times alone — accept a time iff it is at least
`minSep` past the most recently accepted time, the initial reference being
the sentinel `-1e9`. -/
def greedyTimes (minSep : ℚ) : ℚ → List ℚ → List ℚ
  | _, [] => []
  | lastT, t :: rest =>
    if minSep ≤ t - lastT then t :: greedyTimes minSep t rest else greedyTimes minSep lastT rest

/-- `np.median`: middle element of the sorted data, or the mean of the two
middle elements for even length (0 on empty input, which the program never
consults). -/
def npMedian (l : List ℚ) : ℚ :=
  let s := l.insertionSort (· ≤ ·)
  if l.length = 0 then 0
  else if l.length % 2 = 1 then s.getD (l.length / 2) 0
  else (s.getD (l.length / 2 - 1) 0 + s.getD (l.length / 2) 0) / 2

/-- The analysis core of `load_audio_events` after the STFT: `f` and `t` are
the spectrogram's bin frequencies and frame times, `mag` its magnitude matrix
(`mag[bin][frame]`).  `log10` stands for the (transcendental) `np.log10` and
`fmtDb` for the `f-string` rendering of a decibel level; both are parameters
of the model.  Selects the bins inside `[bandLow, bandHigh]` (returning `[]`
when there are none), converts per-frame mean magnitude to decibels, puts an
adaptive median threshold, and feeds the surviving frames to `dedupPeaks`. -/
def detectPeaks (log10 : ℚ → ℚ) (fmtDb : ℚ → Str) (f t : List ℚ) (mag : List (List ℚ))
    (bandLow bandHigh threshDb minSep : ℚ) : List Event :=
  let bandIdx := (List.range f.length).filter
    (fun i => decide (bandLow ≤ f.getD i 0) && decide (f.getD i 0 ≤ bandHigh))
  if bandIdx = [] then []
  else
    let nFrames := t.length
    let bandEnergy := (List.range nFrames).map (fun fr =>
      let m := (bandIdx.map (fun bi => (mag.getD bi []).getD fr 0)).sum / (bandIdx.length : ℚ)
      20 * log10 (max (1 / 10 ^ 12) m))
    let med := npMedian bandEnergy
    let peakIdx := (List.range nFrames).filter (fun fr => decide (bandEnergy.getD fr 0 > med + threshDb))
    dedupPeaks minSep (-(10 ^ 9)) (peakIdx.map (fun fr => (t.getD fr 0, fmtDb (bandEnergy.getD fr 0))))

/-- `align_audio_to_wifi`: identity when either stream is empty, otherwise
shift every acoustic event by the offset between the two earliest events. -/
def align_audio_to_wifi (audio wifi : List Event) : List Event :=
  match audio, wifi with
  | [], _ => audio
  | _, [] => audio
  | a0 :: aRest, w0 :: wRest =>
    let audioT0 := (aRest.map Event.ts).foldl min a0.ts
    let wifiT0 := (wRest.map Event.ts).foldl min w0.ts
    let offset := wifiT0 - audioT0
    audio.map (fun e => ⟨e.ts + offset, e.source, e.label, e.meta⟩)

/-- One capture row as seen by `load_wifi_events` after the dataframe
normalisation: `time_epoch` is the result of `float(...)` on the timestamp
field (`none` when that raises), `type_subtype` and `ssid` are the textual
field contents (`''` when absent), `freq` the numeric radio frequency
(`none` when absent or unreadable) and `width` the textual channel width
(`none` when absent). -/
structure Row where
  time_epoch : Option ℚ
  type_subtype : Str
  ssid : Str
  freq : Option ℚ
  width : Option Str

/-- `norm_freq`: values below 100 000 are treated as MHz and scaled to Hz. -/
def norm_freq (x : Option ℚ) : Option ℚ :=
  x.map (fun fq => fq * (if fq < 100000 then 1000000 else 1))

/-- `is_beacon`: the subtype text contains `'Beacon'` or strips to `'8'`. -/
def is_beacon (st : Str) : Bool :=
  strHas st sBeacon || decide (pyStrip st = s8)

/-- Python `x or dflt` on an optional string (both `None` and `''` are falsy). -/
def pyOrStr (x : Option Str) (dflt : Str) : Str :=
  match x with
  | none => dflt
  | some s => if s = [] then dflt else s

/-- The per-row body of `load_wifi_events`'s loop: `none` models `continue`
(unparseable timestamp, non-beacon row, or undetermined band); otherwise the
emitted event.  `freqText` stands for Python's `str()` rendering of a float
and is a parameter of the model. -/
def rowEvent (freqText : ℚ → Str) (r : Row) : Option Event :=
  match r.time_epoch with
  | none => none
  | some ts =>
    if is_beacon r.type_subtype then
      let fq := norm_freq r.freq
      let band := _band_from_freq fq
      let width := pyOrStr (_width_from_ws r.width) s20
      match band with
      | none => none
      | some b =>
        some ⟨ts, srcWifi, pBeacon ++ b ++ sUnd ++ width,
          [(kSsid, r.ssid),
           (kFreqHz, match fq with | none => [] | some q => if q = 0 then [] else freqText q),
           (kWidthMhz, width)]⟩
    else none

/-- `load_wifi_events`' row loop: each row either `continue`s or appends one
event, i.e. a `filterMap` of `rowEvent` over the rows. -/
def load_wifi_events (freqText : ℚ → Str) (rows : List Row) : List Event :=
  rows.filterMap (rowEvent freqText)


/-! Helper lemmas about characters and the Python string primitives. -/

theorem toNat_ofNat_valid {n : ℕ} (h : n.isValidChar) : (Char.ofNat n).toNat = n := by
  unfold Char.ofNat
  rw [dif_pos h]
  rfl

theorem toLower_eq (c : Char) :
    c.toLower = if c.toNat ≥ 65 ∧ c.toNat ≤ 90 then Char.ofNat (c.toNat + 32) else c := rfl

theorem toLower_twice (c : Char) : c.toLower.toLower = c.toLower := by
  by_cases h : c.toNat ≥ 65 ∧ c.toNat ≤ 90
  · have hv : (c.toNat + 32).isValidChar := Or.inl (by omega)
    have ht : (Char.ofNat (c.toNat + 32)).toNat = c.toNat + 32 := toNat_ofNat_valid hv
    rw [toLower_eq c, if_pos h, toLower_eq, ht, if_neg (by omega)]
  · rw [toLower_eq c, if_neg h, toLower_eq c, if_neg h]

theorem pyLower_idem (s : Str) : pyLower (pyLower s) = pyLower s := by
  simp only [pyLower, List.map_map]
  exact List.map_congr_left (fun c _ => toLower_twice c)

theorem mem_pyStrip {c : Char} {s : Str} (hc : c ∈ pyStrip s) : c ∈ s := by
  unfold pyStrip at hc
  rw [List.mem_reverse] at hc
  have h2 := (List.dropWhile_sublist _).subset hc
  rw [List.mem_reverse] at h2
  exact (List.dropWhile_sublist _).subset h2

theorem pyIntRun_false_of_noDigit (l : Str) (h : ∀ c ∈ l, c.isDigit = false) :
    pyIntRun false l = false := by
  cases l with
  | nil => rfl
  | cons c rest =>
    have hc := h c (List.mem_cons_self c rest)
    simp [pyIntRun, hc]

theorem reFirstDigits_eq_none (s : Str) (h : ∀ c ∈ s, c.isDigit = false) :
    reFirstDigits s = none := by
  induction s with
  | nil => rfl
  | cons c rest ih =>
    have hc := h c (List.mem_cons_self c rest)
    simp only [reFirstDigits, hc]
    exact ih (fun x hx => h x (List.mem_cons_of_mem c hx))

theorem pyInt?_eq_none (s : Str) (h : ∀ c ∈ s, c.isDigit = false) : pyInt? s = none := by
  have hstrip : ∀ c ∈ pyStrip s, c.isDigit = false := fun c hc => h c (mem_pyStrip hc)
  rcases hs : pyStrip s with _ | ⟨c, r⟩
  · simp [pyInt?, hs]
  · have hrun1 : pyIntRun false r = false :=
      pyIntRun_false_of_noDigit r (fun x hx => hstrip x (hs ▸ List.mem_cons_of_mem c hx))
    have hrun2 : pyIntRun false (c :: r) = false :=
      pyIntRun_false_of_noDigit _ (fun x hx => hstrip x (hs ▸ hx))
    simp only [pyInt?, hs]
    split_ifs <;> simp_all

/-! Claim theorems for the frequency/band classifier and width normaliser. -/

/-- C1, counterexample: `_width_from_ws` is NOT the claimed function.  On the
non-empty input `'7'`, which is not one of the integer codes 0..6 and whose
text contains the digit run `'7'`, the code returns `none` (the enum-table
`.get` misses), while the claim's first-digit-run fallback would return `'7'`. -/
theorem c1_counterexample :
    _width_from_ws (some ("7".data)) ≠ claimWidth (some ("7".data)) := by decide

/-- C1, amended: `_width_from_ws` maps the integer codes 0..6 to the labels
20/40/80/160/80/5/10, maps every other input accepted by `int()` to `none`,
and only inputs rejected by `int()` fall back to the first embedded digit run
of their text; the result is `none` on absent, empty, or digit-free input,
and `'40MHz'` normalises to `'40'`. -/
theorem c1_width_amended :
    (∀ w : Option Str, _width_from_ws w = amendedWidth w) ∧
    (∀ s : Str, (∀ c ∈ s, c.isDigit = false) → _width_from_ws (some s) = none) ∧
    _width_from_ws (some ("0".data)) = some s20 ∧
    _width_from_ws (some ("1".data)) = some s40 ∧
    _width_from_ws (some ("2".data)) = some s80 ∧
    _width_from_ws (some ("3".data)) = some s160 ∧
    _width_from_ws (some ("4".data)) = some s80 ∧
    _width_from_ws (some ("5".data)) = some s5 ∧
    _width_from_ws (some ("6".data)) = some s10 ∧
    _width_from_ws (some ("40MHz".data)) = some s40 ∧
    _width_from_ws (some []) = none ∧
    _width_from_ws none = none := by
  refine ⟨?_, ?_, by decide, by decide, by decide, by decide, by decide, by decide, by decide,
    by decide, by decide, rfl⟩
  · intro w
    cases w with
    | none => rfl
    | some s =>
      by_cases hs : s = []
      · subst hs
        decide
      · simp only [_width_from_ws, amendedWidth, if_neg hs]
        cases hp : pyInt? s with
        | none => simp [hs]
        | some i => simp [mappingGet]
  · intro s h
    by_cases hs : s = []
    · subst hs
      decide
    · simp only [_width_from_ws, if_neg hs, pyInt?_eq_none s h]
      exact reFirstDigits_eq_none s h

/-- C1 witness: the no-digit clause of the amended theorem applied at the
concrete digit-free input `'MHz'`. -/
theorem c1_witness :
    (∀ c ∈ ("MHz".data), c.isDigit = false) ∧ _width_from_ws (some ("MHz".data)) = none :=
  ⟨by decide, c1_width_amended.2.1 ("MHz".data) (by decide)⟩

/-- C2, counterexample: the claimed token rules, read on the raw token text,
disagree with the code.  For label `wifi_beacon_5g_40` and token `WIFI5`, the
claim's rules fall through to exact equality (the raw token does not begin
with `wifi5`) and predict no match, but the code lower-cases the token first
and matches via the 5 GHz prefix rule. -/
theorem c2_counterexample :
    matchTok ("wifi_beacon_5g_40".data) ("WIFI5".data) ≠
      specMatchRaw ("wifi_beacon_5g_40".data) ("WIFI5".data) := by decide

/-- C2, amended: the matcher applies exactly the claimed rules to the
LOWER-CASED token: `match(label, token) = rules(label, lowercase(token))`,
where `rules` is the claim's rule table read literally (ultra19 ↦ `ultra_`
prefix, `wifi5`/`wifi6` prefixes with `_20` bandwidth discrimination when the
token text contains `20`, `wifi2` prefix without discrimination, otherwise
exact equality). -/
theorem c2_match_amended :
    ∀ label token : Str, matchTok label token = specMatchRaw label (pyLower token) :=
  fun _ _ => rfl

/-- C10: token matching is case-insensitive in the token — lower-casing the
token before matching changes nothing, because the code lower-cases it
itself; and when every prefix rule misses, the fall-through rule compares the
LOWER-CASED token with the unmodified label. -/
theorem c10_case_insensitive :
    (∀ label token : Str, matchTok label token = matchTok label (pyLower token)) ∧
    (∀ label token : Str, pyLower token ≠ tUltra19 →
      pW5.isPrefixOf (pyLower token) = false →
      pW6.isPrefixOf (pyLower token) = false →
      pW2.isPrefixOf (pyLower token) = false →
      (matchTok label token = true ↔ label = pyLower token)) := by
  constructor
  · intro label token
    calc matchTok label token = specMatchRaw label (pyLower token) := rfl
      _ = specMatchRaw label (pyLower (pyLower token)) := by rw [pyLower_idem]
      _ = matchTok label (pyLower token) := rfl
  · intro label token h1 h2 h3 h4
    have hm : matchTok label token = specMatchRaw label (pyLower token) := rfl
    rw [hm]
    simp [specMatchRaw, if_neg h1, h2, h3, h4]

/-- C10 witness: the upper-case token `ABC` matches label `abc` exactly as
its lower-cased form does, and the fall-through rule at that concrete pair
compares `abc` with `lowercase('ABC')`. -/
theorem c10_witness :
    (pyLower ("ABC".data) ≠ tUltra19 ∧ pW5.isPrefixOf (pyLower ("ABC".data)) = false ∧
      pW6.isPrefixOf (pyLower ("ABC".data)) = false ∧
      pW2.isPrefixOf (pyLower ("ABC".data)) = false) ∧
    (matchTok ("abc".data) ("ABC".data) = true ↔ ("abc".data : Str) = pyLower ("ABC".data)) ∧
    matchTok ("abc".data) ("ABC".data) = matchTok ("abc".data) (pyLower ("ABC".data)) :=
  ⟨by decide,
   c10_case_insensitive.2 ("abc".data) ("ABC".data) (by decide) (by decide) (by decide) (by decide),
   c10_case_insensitive.1 ("abc".data) ("ABC".data)⟩

/-- C3: `_band_from_freq` is total with range {none, 2g4, 5g, 6g}; it returns
`2g4` iff the frequency lies in [2400e6, 2500e6], `5g` iff it lies in
[5150e6, 5945e6] (equivalently: and not in the disjoint 2g4 range), `6g` iff
it lies in [5925e6, 7125e6] and in neither earlier range, and `none`
otherwise or on absent input; all six boundary values are inclusive and the
5g/6g overlap — in particular 5935e6 — resolves to `5g`. -/
theorem c3_band_characterization :
    (∀ f : Option ℚ,
      _band_from_freq f = none ∨ _band_from_freq f = some s2g4 ∨
      _band_from_freq f = some s5g ∨ _band_from_freq f = some s6g) ∧
    _band_from_freq none = none ∧
    (∀ q : ℚ,
      (_band_from_freq (some q) = some s2g4 ↔ 2400000000 ≤ q ∧ q ≤ 2500000000) ∧
      (_band_from_freq (some q) = some s5g ↔
        (5150000000 ≤ q ∧ q ≤ 5945000000) ∧ ¬(2400000000 ≤ q ∧ q ≤ 2500000000)) ∧
      (_band_from_freq (some q) = some s6g ↔
        (5925000000 ≤ q ∧ q ≤ 7125000000) ∧ ¬(5150000000 ≤ q ∧ q ≤ 5945000000) ∧
          ¬(2400000000 ≤ q ∧ q ≤ 2500000000)) ∧
      (_band_from_freq (some q) = none ↔
        ¬(2400000000 ≤ q ∧ q ≤ 2500000000) ∧ ¬(5150000000 ≤ q ∧ q ≤ 5945000000) ∧
          ¬(5925000000 ≤ q ∧ q ≤ 7125000000))) ∧
    _band_from_freq (some 5935000000) = some s5g ∧
    _band_from_freq (some 2400000000) = some s2g4 ∧
    _band_from_freq (some 2500000000) = some s2g4 ∧
    _band_from_freq (some 5150000000) = some s5g ∧
    _band_from_freq (some 5945000000) = some s5g ∧
    _band_from_freq (some 5925000000) = some s5g ∧
    _band_from_freq (some 7125000000) = some s6g := by
  have hne1 : s2g4 ≠ s5g := by decide
  have hne2 : s2g4 ≠ s6g := by decide
  have hne3 : s5g ≠ s6g := by decide
  have hne1' : s5g ≠ s2g4 := by decide
  have hne2' : s6g ≠ s2g4 := by decide
  have hne3' : s6g ≠ s5g := by decide
  refine ⟨?_, rfl, ?_, by decide, by decide, by decide, by decide, by decide, by decide, by decide⟩
  · intro f
    cases f with
    | none => exact Or.inl rfl
    | some q =>
      simp only [_band_from_freq]
      split_ifs <;> simp
  · intro q
    simp only [_band_from_freq]
    split_ifs with h1 h2 h3
    · have n5 : ¬(5150000000 ≤ q ∧ q ≤ 5945000000) := fun hx => by linarith [h1.2, hx.1]
      have n6 : ¬(5925000000 ≤ q ∧ q ≤ 7125000000) := fun hx => by linarith [h1.2, hx.1]
      simp_all
    · simp_all
    · simp_all
    · simp_all

/-! Theorems for the acoustic peak detector's de-duplication loop (C6). -/

theorem dedupPeaks_head_ge (minSep : ℚ) :
    ∀ (l : List (ℚ × Str)) (lastT : ℚ) (e : Event),
      (dedupPeaks minSep lastT l).head? = some e → minSep ≤ e.ts - lastT := by
  intro l
  induction l with
  | nil => intro lastT e h; simp [dedupPeaks] at h
  | cons p rest ih =>
    intro lastT e h
    rcases p with ⟨ts, db⟩
    simp only [dedupPeaks] at h
    split_ifs at h with hc
    · rw [List.head?_cons, Option.some.injEq] at h
      subst h
      exact hc
    · exact ih lastT e h

theorem dedupPeaks_chain (minSep : ℚ) :
    ∀ (l : List (ℚ × Str)) (lastT : ℚ),
      List.Chain' (fun x y => minSep ≤ y.ts - x.ts) (dedupPeaks minSep lastT l) := by
  intro l
  induction l with
  | nil => intro lastT; simp [dedupPeaks]
  | cons p rest ih =>
    intro lastT
    rcases p with ⟨ts, db⟩
    simp only [dedupPeaks]
    split_ifs with hc
    · rw [List.chain'_cons']
      exact ⟨fun e he => dedupPeaks_head_ge minSep rest ts e he, ih ts⟩
    · exact ih lastT

theorem dedupPeaks_times (minSep : ℚ) :
    ∀ (l : List (ℚ × Str)) (lastT : ℚ),
      (dedupPeaks minSep lastT l).map Event.ts = greedyTimes minSep lastT (l.map Prod.fst) := by
  intro l
  induction l with
  | nil => intro lastT; rfl
  | cons p rest ih =>
    intro lastT
    rcases p with ⟨ts, db⟩
    simp only [dedupPeaks, greedyTimes, List.map_cons]
    split_ifs with hc
    · simp only [List.map_cons, ih ts]
      rfl
    · exact ih lastT

/-- C6, counterexample: the first candidate is NOT always accepted.  With
`min_separation_s = 2e9` the single candidate at time 0 is rejected, because
the acceptance test compares against the sentinel `last_t = -1e9` rather
than accepting the first candidate unconditionally: the emitted list is
empty where the claim predicts one event. -/
theorem c6_counterexample :
    dedupPeaks (2 * 10 ^ 9) (-(10 ^ 9)) [(0, [])] = [] ∧
    ([] : List Event) ≠ [mkAudioEvent 0 []] := by
  constructor
  · norm_num [dedupPeaks]
  · simp

/-- C6, amended: over time-ordered candidates the detector's greedy
de-duplication accepts a candidate iff its time is at least
`min_separation_s` past the most recently accepted time, where the initial
reference is the sentinel `-1e9` (so the FIRST candidate is accepted iff its
time is at least `min_separation_s - 1e9`, true in particular for any
nonnegative time with `min_separation_s ≤ 1e9`); consequently consecutive
accepted timestamps differ by at least `min_separation_s`, and a cluster
keeps only its earliest member clearing the gap, regardless of magnitude
(the accepted times are exactly the greedy scan of the candidate times —
levels play no role). -/
theorem c6_dedup_amended (minSep : ℚ) (cands : List (ℚ × Str))
    (_hsorted : List.Chain' (· ≤ ·) (cands.map Prod.fst)) :
    List.Chain' (fun x y => minSep ≤ y.ts - x.ts) (dedupPeaks minSep (-(10 ^ 9)) cands) ∧
    (dedupPeaks minSep (-(10 ^ 9)) cands).map Event.ts =
      greedyTimes minSep (-(10 ^ 9)) (cands.map Prod.fst) ∧
    (∀ (t0 : ℚ) (db : Str) (rest : List (ℚ × Str)), cands = (t0, db) :: rest →
      minSep ≤ t0 - (-(10 ^ 9)) →
      dedupPeaks minSep (-(10 ^ 9)) cands = mkAudioEvent t0 db :: dedupPeaks minSep t0 rest) := by
  refine ⟨dedupPeaks_chain minSep cands _, dedupPeaks_times minSep cands _, ?_⟩
  intro t0 db rest hc hge
  subst hc
  simp only [dedupPeaks, ge_iff_le, if_pos hge]

/-- C6 witness: the amended theorem at candidates (0, 1, 3) with
`min_separation_s = 2`: the sorted-input hypothesis holds, the first
candidate is accepted (2 ≤ 0 + 1e9), and consecutive accepted events are at
least 2 apart. -/
theorem c6_witness :
    List.Chain' (· ≤ ·) ([((0:ℚ), "a".data), (1, "b".data), (3, "c".data)].map Prod.fst) ∧
    dedupPeaks 2 (-(10 ^ 9)) [((0:ℚ), "a".data), (1, "b".data), (3, "c".data)] =
      mkAudioEvent 0 ("a".data) :: dedupPeaks 2 0 [(1, "b".data), (3, "c".data)] ∧
    List.Chain' (fun x y => (2:ℚ) ≤ y.ts - x.ts)
      (dedupPeaks 2 (-(10 ^ 9)) [((0:ℚ), "a".data), (1, "b".data), (3, "c".data)]) := by
  have hs : List.Chain' (· ≤ ·)
      ([((0:ℚ), "a".data), (1, "b".data), (3, "c".data)].map Prod.fst) := by
    norm_num [List.chain'_cons]
  exact ⟨hs,
    (c6_dedup_amended 2 _ hs).2.2 0 ("a".data) _ rfl (by norm_num),
    (c6_dedup_amended 2 _ hs).1⟩

/-! Theorems for the timestamp aligner (C7). -/

theorem foldl_min_mem : ∀ (l : List ℚ) (x : ℚ), l.foldl min x ∈ x :: l := by
  intro l
  induction l with
  | nil => intro x; simp
  | cons y rest ih =>
    intro x
    rw [List.foldl_cons]
    rcases List.mem_cons.1 (ih (min x y)) with h1 | h1
    · rcases min_choice x y with hm | hm
      · rw [h1, hm]; exact List.mem_cons_self _ _
      · rw [h1, hm]; exact List.mem_cons_of_mem _ (List.mem_cons_self _ _)
    · exact List.mem_cons_of_mem _ (List.mem_cons_of_mem _ h1)

theorem foldl_min_le : ∀ (l : List ℚ) (x y : ℚ), y ∈ x :: l → l.foldl min x ≤ y := by
  intro l
  induction l with
  | nil =>
    intro x y hy
    simp only [List.mem_singleton] at hy
    simp [hy]
  | cons z rest ih =>
    intro x y hy
    rw [List.foldl_cons]
    rcases List.mem_cons.1 hy with h1 | h1
    · rw [h1]
      exact le_trans (ih (min x z) (min x z) (List.mem_cons_self _ _)) (min_le_left _ _)
    · rcases List.mem_cons.1 h1 with h2 | h2
      · rw [h2]
        exact le_trans (ih (min x z) (min x z) (List.mem_cons_self _ _)) (min_le_right _ _)
      · exact ih (min x z) y (List.mem_cons_of_mem _ h2)

/-- C7: `align_audio_to_wifi` returns the acoustic list unchanged when
either stream is empty; otherwise it returns one new event per acoustic
event, shifted by the single scalar offset `min(wifi times) - min(audio
times)`, with source, label and attributes unchanged. -/
theorem c7_align_contract (audio wifi : List Event) :
    ((audio = [] ∨ wifi = []) → align_audio_to_wifi audio wifi = audio) ∧
    (audio ≠ [] → wifi ≠ [] →
      ∃ ta tw : ℚ,
        ta ∈ audio.map Event.ts ∧ (∀ x ∈ audio.map Event.ts, ta ≤ x) ∧
        tw ∈ wifi.map Event.ts ∧ (∀ x ∈ wifi.map Event.ts, tw ≤ x) ∧
        align_audio_to_wifi audio wifi =
          audio.map (fun e => ⟨e.ts + (tw - ta), e.source, e.label, e.meta⟩)) := by
  constructor
  · rintro (rfl | rfl)
    · cases wifi <;> rfl
    · cases audio <;> rfl
  · intro ha hw
    rcases audio with _ | ⟨a0, aRest⟩
    · exact absurd rfl ha
    rcases wifi with _ | ⟨w0, wRest⟩
    · exact absurd rfl hw
    refine ⟨(aRest.map Event.ts).foldl min a0.ts, (wRest.map Event.ts).foldl min w0.ts,
      ?_, ?_, ?_, ?_, rfl⟩
    · simpa using foldl_min_mem (aRest.map Event.ts) a0.ts
    · intro x hx
      exact foldl_min_le (aRest.map Event.ts) a0.ts x (by simpa using hx)
    · simpa using foldl_min_mem (wRest.map Event.ts) w0.ts
    · intro x hx
      exact foldl_min_le (wRest.map Event.ts) w0.ts x (by simpa using hx)

/-- C7 witness: a single acoustic event at t=5 aligned against a wifi event
at t=12 is shifted to t=12; aligned against an empty wifi list it is
returned unchanged. -/
theorem c7_witness :
    align_audio_to_wifi [⟨5, srcAudio, lblUltra, []⟩] [⟨12, srcWifi, s20, []⟩] =
      [⟨12, srcAudio, lblUltra, []⟩] ∧
    align_audio_to_wifi [⟨5, srcAudio, lblUltra, []⟩] [] = [⟨5, srcAudio, lblUltra, []⟩] := by
  constructor
  · obtain ⟨ta, tw, hta, -, htw, -, heq⟩ :=
      (c7_align_contract [⟨5, srcAudio, lblUltra, []⟩] [⟨12, srcWifi, s20, []⟩]).2
        (by simp) (by simp)
    simp only [List.map_cons, List.map_nil, List.mem_singleton] at hta htw
    rw [heq, hta, htw]
    norm_num
  · exact (c7_align_contract _ _).1 (Or.inr rfl)

/-! Theorems for the acoustic detector's empty-band path (C9). -/

/-- C9: when no spectrogram bin centre falls inside `[bandLow, bandHigh]`,
the detector returns the empty event list (and, being a total function,
raises nothing) — for every audio input and every such band. -/
theorem c9_empty_band (log10 : ℚ → ℚ) (fmtDb : ℚ → Str) (f t : List ℚ) (mag : List (List ℚ))
    (bandLow bandHigh threshDb minSep : ℚ)
    (h : ∀ q ∈ f, ¬(bandLow ≤ q ∧ q ≤ bandHigh)) :
    detectPeaks log10 fmtDb f t mag bandLow bandHigh threshDb minSep = [] := by
  have hf : (List.range f.length).filter
      (fun i => decide (bandLow ≤ f.getD i 0) && decide (f.getD i 0 ≤ bandHigh)) = [] := by
    rw [List.filter_eq_nil_iff]
    intro i hi
    rw [List.mem_range] at hi
    have hmem : f.getD i 0 ∈ f := by
      rw [List.getD_eq_getElem?_getD, List.getElem?_eq_getElem hi]
      exact List.getElem_mem hi
    simp only [Bool.and_eq_true, decide_eq_true_eq, not_and]
    intro h1 h2
    exact h _ hmem ⟨h1, h2⟩
  simp only [detectPeaks, hf]
  simp

/-- C9 witness: a spectrogram whose only bin centre is 1000 Hz, probed for
the band [18000, 21000]: no bin qualifies and the result is empty. -/
theorem c9_witness :
    (∀ q ∈ ([1000] : List ℚ), ¬((18000:ℚ) ≤ q ∧ q ≤ 21000)) ∧
    detectPeaks (fun _ => 0) (fun _ => []) [1000] [0, 1] [[1, 1]] 18000 21000 12 (1/4) = [] :=
  ⟨by decide, c9_empty_band _ _ _ _ _ _ _ _ _ (by decide)⟩

/-! Theorems for the wireless extractor's per-row policy (C8). -/

/-- C8: for each capture row — an unparseable timestamp skips the row and
extraction continues with the rest; a beacon row whose band is undetermined
is discarded; a beacon row with band `b` emits exactly one event with source
`wifi` and label `wifi_beacon_{b}_{width}`, where the width defaults to
`'20'` when undetermined. -/
theorem c8_wifi_row_policy (freqText : ℚ → Str) :
    (∀ (r : Row) (rows : List Row), r.time_epoch = none →
      load_wifi_events freqText (r :: rows) = load_wifi_events freqText rows) ∧
    (∀ (r : Row) (rows : List Row) (ts : ℚ), r.time_epoch = some ts →
      is_beacon r.type_subtype = true →
      _band_from_freq (norm_freq r.freq) = none →
      load_wifi_events freqText (r :: rows) = load_wifi_events freqText rows) ∧
    (∀ (r : Row) (rows : List Row) (ts : ℚ) (b : Str), r.time_epoch = some ts →
      is_beacon r.type_subtype = true →
      _band_from_freq (norm_freq r.freq) = some b →
      ∃ e : Event,
        rowEvent freqText r = some e ∧
        load_wifi_events freqText (r :: rows) = e :: load_wifi_events freqText rows ∧
        e.source = srcWifi ∧ e.ts = ts ∧
        e.label = pBeacon ++ b ++ sUnd ++ pyOrStr (_width_from_ws r.width) s20 ∧
        (_width_from_ws r.width = none → e.label = pBeacon ++ b ++ sUnd ++ s20)) := by
  refine ⟨?_, ?_, ?_⟩
  · intro r rows h
    simp [load_wifi_events, List.filterMap_cons, rowEvent, h]
  · intro r rows ts h hb hband
    simp [load_wifi_events, List.filterMap_cons, rowEvent, h, hb, hband]
  · intro r rows ts b h hb hband
    have he : rowEvent freqText r =
        some ⟨ts, srcWifi, pBeacon ++ b ++ sUnd ++ pyOrStr (_width_from_ws r.width) s20,
          [(kSsid, r.ssid),
           (kFreqHz, match norm_freq r.freq with
             | none => []
             | some q => if q = 0 then [] else freqText q),
           (kWidthMhz, pyOrStr (_width_from_ws r.width) s20)]⟩ := by
      simp [rowEvent, h, hb, hband]
    refine ⟨_, he, ?_, rfl, rfl, rfl, ?_⟩
    · simp [load_wifi_events, List.filterMap_cons, he]
    · intro hw
      simp [hw, pyOrStr]

/-- C8 witness: a row with unparseable timestamp is skipped; a beacon row at
2412 MHz with unknown width emits `wifi_beacon_2g4_20`; a beacon row with no
frequency (band undetermined) is dropped. -/
theorem c8_witness :
    load_wifi_events (fun _ => []) [⟨none, sBeacon, [], some 2412, none⟩] =
      load_wifi_events (fun _ => []) [] ∧
    load_wifi_events (fun _ => []) [⟨some 100, sBeacon, [], none, none⟩] =
      load_wifi_events (fun _ => []) [] ∧
    (∃ e : Event,
      rowEvent (fun _ => []) ⟨some 100, sBeacon, [], some 2412, none⟩ = some e ∧
      load_wifi_events (fun _ => []) [⟨some 100, sBeacon, [], some 2412, none⟩] =
        e :: load_wifi_events (fun _ => []) [] ∧
      e.source = srcWifi ∧ e.ts = 100 ∧
      e.label = pBeacon ++ s2g4 ++ sUnd ++ pyOrStr (_width_from_ws none) s20 ∧
      (_width_from_ws none = none → e.label = pBeacon ++ s2g4 ++ sUnd ++ s20)) :=
  ⟨(c8_wifi_row_policy (fun _ => [])).1 _ [] rfl,
   (c8_wifi_row_policy (fun _ => [])).2.1 _ [] 100 rfl (by decide) rfl,
   (c8_wifi_row_policy (fun _ => [])).2.2 _ [] 100 s2g4 rfl (by decide)
     (by norm_num [norm_freq, _band_from_freq])⟩

/-! Generic bridge between structural pair/triple enumeration and the
index-based naive enumeration (`i` over `range n`, `j` over `range(i+1, n)`,
`k` over `range(j+1, n)`). -/

theorem flatMapL_map (f : β → List γ) (g : α → β) (l : List α) :
    flatMapL f (l.map g) = flatMapL (fun a => f (g a)) l := by
  induction l with
  | nil => rfl
  | cons a l ih => simp only [List.map_cons, flatMapL, ih]

theorem filterMap_range'_succ (g : ℕ → Option γ) :
    ∀ (m s : ℕ), (List.range' (s + 1) m).filterMap g =
      (List.range' s m).filterMap (fun i => g (i + 1)) := by
  intro m
  induction m with
  | zero => intro s; rfl
  | succ m ih =>
    intro s
    rw [List.range'_succ, List.range'_succ]
    simp only [List.filterMap_cons]
    cases g (s + 1) <;> simp [ih (s + 1)]

theorem flatMapL_range'_succ (G : ℕ → List γ) :
    ∀ (m s : ℕ), flatMapL G (List.range' (s + 1) m) =
      flatMapL (fun i => G (i + 1)) (List.range' s m) := by
  intro m
  induction m with
  | zero => intro s; rfl
  | succ m ih =>
    intro s
    rw [List.range'_succ, List.range'_succ]
    simp only [flatMapL]
    rw [ih (s + 1)]

theorem filterMap_index [Inhabited α] (h : α → Option γ) (l : List α) :
    (List.range l.length).filterMap (fun i => h (l.getD i default)) = l.filterMap h := by
  induction l with
  | nil => rfl
  | cons a l ih =>
    rw [List.length_cons, List.range_succ_eq_map]
    rw [List.filterMap_cons, List.filterMap_cons, List.filterMap_map]
    have h2 : ((fun i => h ((a :: l).getD i default)) ∘ Nat.succ) =
        fun i => h (l.getD i default) := funext fun i => rfl
    rw [h2, ih]
    rfl

theorem filterMap_index_drop [Inhabited α] (h : α → Option γ) (l : List α) (s : ℕ) :
    (List.range' s (l.length - s)).filterMap (fun i => h (l.getD i default)) =
      (l.drop s).filterMap h := by
  rw [List.range'_eq_map_range, List.filterMap_map]
  have h2 : ((fun i => h (l.getD i default)) ∘ (s + ·)) =
      fun i => h ((l.drop s).getD i default) := by
    funext i
    simp only [Function.comp_apply]
    congr 1
    rw [List.getD_eq_getElem?_getD, List.getD_eq_getElem?_getD, List.getElem?_drop]
  rw [h2, show l.length - s = (l.drop s).length from (List.length_drop s l).symm]
  exact filterMap_index h (l.drop s)

theorem pairEnum_index [Inhabited α] (g : α → α → Option γ) (l : List α) :
    pairEnum g l =
      flatMapL (fun j => (List.range' (j + 1) (l.length - (j + 1))).filterMap
        (fun k => g (l.getD j default) (l.getD k default))) (List.range l.length) := by
  induction l with
  | nil => rfl
  | cons b rest ih =>
    rw [List.length_cons, List.range_succ_eq_map]
    simp only [flatMapL]
    rw [flatMapL_map]
    have hblock0 : (List.range' (0 + 1) ((b :: rest).length - (0 + 1))).filterMap
        (fun k => g ((b :: rest).getD 0 default) ((b :: rest).getD k default)) =
        rest.filterMap (g b) := by
      simpa using filterMap_index_drop (g b) (b :: rest) 1
    have hshift : ∀ j : ℕ,
        (List.range' (j + 1 + 1) ((b :: rest).length - (j + 1 + 1))).filterMap
          (fun k => g ((b :: rest).getD (j + 1) default) ((b :: rest).getD k default)) =
        (List.range' (j + 1) (rest.length - (j + 1))).filterMap
          (fun k => g (rest.getD j default) (rest.getD k default)) := by
      intro j
      rw [filterMap_range'_succ]
      simp only [List.length_cons, Nat.succ_sub_succ, List.getD_cons_succ]
    simp only [pairEnum]
    congr 1
    · exact hblock0.symm
    · rw [ih]
      congr 1
      funext j
      exact (hshift j).symm

theorem triEnum_index [Inhabited α] (f : α → α → α → Option γ) (l : List α) :
    triEnum f l = triEnumIx f l := by
  induction l with
  | nil => rfl
  | cons a rest ih =>
    rw [triEnumIx, List.length_cons, List.range_succ_eq_map]
    simp only [flatMapL]
    rw [flatMapL_map]
    have hshiftK : ∀ (x : α) (j : ℕ),
        (List.range' (j + 1 + 1) ((a :: rest).length - (j + 1 + 1))).filterMap
          (fun k => f x ((a :: rest).getD (j + 1) default) ((a :: rest).getD k default)) =
        (List.range' (j + 1) (rest.length - (j + 1))).filterMap
          (fun k => f x (rest.getD j default) (rest.getD k default)) := by
      intro x j
      rw [filterMap_range'_succ]
      simp only [List.length_cons, Nat.succ_sub_succ, List.getD_cons_succ]
    have hblock0 :
        flatMapL (fun j => (List.range' (j + 1) ((a :: rest).length - (j + 1))).filterMap
            (fun k => f ((a :: rest).getD 0 default) ((a :: rest).getD j default)
              ((a :: rest).getD k default)))
          (List.range' (0 + 1) ((a :: rest).length - (0 + 1))) =
        pairEnum (f a) rest := by
      rw [flatMapL_range'_succ]
      have hlen : (a :: rest).length - (0 + 1) = rest.length := by
        simp
      rw [hlen, ← List.range_eq_range', pairEnum_index (f a) rest]
      congr 1
      funext j
      exact hshiftK a j
    have hkshift : ∀ (q : α → Option γ) (m s : ℕ),
        (List.range' (s + 1) m).filterMap (fun k => q ((a :: rest).getD k default)) =
        (List.range' s m).filterMap (fun k => q (rest.getD k default)) := by
      intro q m s
      rw [filterMap_range'_succ]
      simp only [List.getD_cons_succ]
    have hshiftI : ∀ i : ℕ,
        flatMapL (fun j => (List.range' (j + 1) ((a :: rest).length - (j + 1))).filterMap
            (fun k => f ((a :: rest).getD (i + 1) default) ((a :: rest).getD j default)
              ((a :: rest).getD k default)))
          (List.range' (i + 1 + 1) ((a :: rest).length - (i + 1 + 1))) =
        flatMapL (fun j => (List.range' (j + 1) (rest.length - (j + 1))).filterMap
            (fun k => f (rest.getD i default) (rest.getD j default) (rest.getD k default)))
          (List.range' (i + 1) (rest.length - (i + 1))) := by
      intro i
      rw [flatMapL_range'_succ]
      simp only [List.length_cons, Nat.succ_sub_succ, List.getD_cons_succ]
      congr 1
      funext j
      exact hkshift (fun c => f (rest.getD i default) (rest.getD j default) c)
        (rest.length - (j + 1)) (j + 1)
    simp only [triEnum]
    congr 1
    · exact hblock0.symm
    · rw [ih, triEnumIx]
      congr 1
      funext i
      exact (hshiftI i).symm

/-! The early-exit loops coincide with the naive enumerations on sorted
input (C4, C5). -/

theorem pairEnum_eq_nil (g : α → α → Option γ) :
    ∀ l : List α, (∀ b ∈ l, ∀ c ∈ l, g b c = none) → pairEnum g l = [] := by
  intro l
  induction l with
  | nil => intro _; rfl
  | cons b rest ih =>
    intro h
    simp only [pairEnum]
    rw [List.filterMap_eq_nil_iff.2
        (fun c hc => h b (List.mem_cons_self _ _) c (List.mem_cons_of_mem _ hc)),
      ih (fun x hx c hc => h x (List.mem_cons_of_mem _ hx) c (List.mem_cons_of_mem _ hc))]
    rfl

theorem mineScanK_eq (a b : Event) (w : ℚ) :
    ∀ l : List Event, l.Pairwise (fun x y => x.ts ≤ y.ts) →
      mineScanK a b.label w l = l.filterMap (mineCond w a b) := by
  intro l
  induction l with
  | nil => intro _; rfl
  | cons c rest ih =>
    intro hp
    rw [List.pairwise_cons] at hp
    obtain ⟨hc, hrest⟩ := hp
    by_cases hcd : c.ts - a.ts ≤ w
    · have ih' := ih hrest
      simp only [mineScanK] at ih' ⊢
      rw [List.takeWhile_cons, if_pos (decide_eq_true hcd), List.map_cons, ih',
        List.filterMap_cons, show mineCond w a b c = some (a.label, b.label, c.label) from
          if_pos hcd]
    · have hnone : ∀ x ∈ c :: rest, mineCond w a b x = none := by
        intro x hx
        rcases List.mem_cons.1 hx with h1 | h1
        · rw [h1]
          exact if_neg hcd
        · have hle := hc x h1
          exact if_neg (show ¬(x.ts - a.ts ≤ w) from fun hle2 => hcd (by linarith))
      simp only [mineScanK]
      rw [List.takeWhile_cons, if_neg (by simpa using hcd),
        List.filterMap_eq_nil_iff.2 hnone]
      rfl

theorem mineScanJ_eq (a : Event) (w : ℚ) :
    ∀ l : List Event, l.Pairwise (fun x y => x.ts ≤ y.ts) →
      mineScanJ a w l = pairEnum (mineCond w a) l := by
  intro l
  induction l with
  | nil => intro _; rfl
  | cons b rest ih =>
    intro hp
    rw [List.pairwise_cons] at hp
    obtain ⟨hb, hrest⟩ := hp
    by_cases hcd : b.ts - a.ts ≤ w
    · simp only [mineScanJ, if_pos hcd, pairEnum]
      rw [mineScanK_eq a b w rest hrest, ih hrest]
    · simp only [mineScanJ, if_neg hcd]
      rw [pairEnum_eq_nil _ _ ?_]
      intro x hx c hc2
      have hxts : ¬(c.ts - a.ts ≤ w) := by
        rcases List.mem_cons.1 hc2 with h1 | h1
        · rw [h1]; exact hcd
        · have := hb c h1
          intro hle
          exact hcd (by linarith)
      simp [mineCond, hxts]

theorem mineTriples_eq (w : ℚ) :
    ∀ l : List Event, l.Pairwise (fun x y => x.ts ≤ y.ts) →
      mineTriples w l = triEnum (mineCond w) l := by
  intro l
  induction l with
  | nil => intro _; rfl
  | cons a rest ih =>
    intro hp
    rw [List.pairwise_cons] at hp
    simp only [mineTriples, triEnum]
    rw [mineScanJ_eq a w rest hp.2, ih hp.2]

/-- C4: on a list whose timestamps are sorted ascending, the triplet miner's
three nested loops WITH the two early-exit breaks visit exactly the triples
of the naive enumeration (`i` over `range n`, `j` over `range(i+1, n)`, `k`
over `range(j+1, n)`, keeping `i < j < k` with
`events[k].ts - events[i].ts ≤ window_s`, in lexicographic index order), so
the resulting `counts` mapping is identical: the pruning drops no valid
triple and counts no invalid one. -/
theorem c4_miner_pruning_equiv (w : ℚ) (ev : List Event)
    (hsorted : ev.Pairwise (fun x y => x.ts ≤ y.ts)) :
    mineTriples w ev = triEnumIx (mineCond w) ev ∧
    mineCounts w ev = tally (triEnumIx (mineCond w) ev) := by
  have h := (mineTriples_eq w ev hsorted).trans (triEnum_index (mineCond w) ev)
  exact ⟨h, by rw [mineCounts, h]⟩

/-- C4 witness: the equivalence applied to four sorted events at times
0, 1, 2, 4 with a 3-second window; the counter holds (a,b,c) once (span 2)
and (b,c,d) once (span 3), while (a,.,d) triples (span 4) are pruned. -/
theorem c4_witness :
    ([⟨0, [], "a".data, []⟩, ⟨1, [], "b".data, []⟩, ⟨2, [], "c".data, []⟩,
        ⟨4, [], "d".data, []⟩] : List Event).Pairwise (fun x y => x.ts ≤ y.ts) ∧
    mineTriples 3 [⟨0, [], "a".data, []⟩, ⟨1, [], "b".data, []⟩, ⟨2, [], "c".data, []⟩,
        ⟨4, [], "d".data, []⟩] =
      triEnumIx (mineCond 3) [⟨0, [], "a".data, []⟩, ⟨1, [], "b".data, []⟩,
        ⟨2, [], "c".data, []⟩, ⟨4, [], "d".data, []⟩] ∧
    mineCounts 3 [⟨0, [], "a".data, []⟩, ⟨1, [], "b".data, []⟩, ⟨2, [], "c".data, []⟩,
        ⟨4, [], "d".data, []⟩] =
      [(("a".data, "b".data, "c".data), 1), (("b".data, "c".data, "d".data), 1)] := by
  have hs : ([⟨0, [], "a".data, []⟩, ⟨1, [], "b".data, []⟩, ⟨2, [], "c".data, []⟩,
      ⟨4, [], "d".data, []⟩] : List Event).Pairwise (fun x y => x.ts ≤ y.ts) := by
    norm_num [List.pairwise_cons]
  refine ⟨hs, (c4_miner_pruning_equiv 3 _ hs).1, ?_⟩
  norm_num [mineCounts, mineTriples, mineScanJ, mineScanK, tally, bump, List.foldl]
  decide

theorem motifScanK_eq (tok0 tok1 tok2 : Str) (gap : ℚ) (a b : Event)
    (ha : matchTok a.label tok0 = true) (hb : matchTok b.label tok1 = true)
    (hab : b.ts - a.ts ≤ gap) :
    ∀ l : List Event, l.Pairwise (fun x y => x.ts ≤ y.ts) →
      (motifScanK b tok2 gap l).map (fun c => (a, b, c)) =
        l.filterMap (motifCond tok0 tok1 tok2 gap a b) := by
  intro l
  induction l with
  | nil => intro _; rfl
  | cons c rest ih =>
    intro hp
    rw [List.pairwise_cons] at hp
    obtain ⟨hc, hrest⟩ := hp
    by_cases hcd : c.ts - b.ts ≤ gap
    · have ih' := ih hrest
      by_cases hm : matchTok c.label tok2 = true
      · have hsome : motifCond tok0 tok1 tok2 gap a b c = some (a, b, c) :=
          if_pos ⟨ha, hb, hm, hab, hcd⟩
        simp only [motifScanK] at ih' ⊢
        rw [List.takeWhile_cons, if_pos (decide_eq_true hcd), List.filter_cons,
          if_pos hm, List.map_cons, ih', List.filterMap_cons, hsome]
      · have hnonec : motifCond tok0 tok1 tok2 gap a b c = none :=
          if_neg (fun hand => hm hand.2.2.1)
        simp only [motifScanK] at ih' ⊢
        rw [List.takeWhile_cons, if_pos (decide_eq_true hcd), List.filter_cons,
          if_neg hm, ih', List.filterMap_cons, hnonec]
    · have hnone : ∀ x ∈ c :: rest, motifCond tok0 tok1 tok2 gap a b x = none := by
        intro x hx
        have hxts : ¬(x.ts - b.ts ≤ gap) := by
          rcases List.mem_cons.1 hx with h1 | h1
          · rw [h1]; exact hcd
          · have := hc x h1
            intro hle
            exact hcd (by linarith)
        exact if_neg (fun hand => hxts hand.2.2.2.2)
      simp only [motifScanK]
      rw [List.takeWhile_cons, if_neg (by simpa using hcd),
        List.filterMap_eq_nil_iff.2 hnone]
      rfl

theorem motifScanJ_eq (tok0 tok1 tok2 : Str) (gap : ℚ) (a : Event)
    (ha : matchTok a.label tok0 = true) :
    ∀ l : List Event, l.Pairwise (fun x y => x.ts ≤ y.ts) →
      motifScanJ a tok1 tok2 gap l = pairEnum (motifCond tok0 tok1 tok2 gap a) l := by
  intro l
  induction l with
  | nil => intro _; rfl
  | cons b rest ih =>
    intro hp
    rw [List.pairwise_cons] at hp
    obtain ⟨hb, hrest⟩ := hp
    by_cases hgap : b.ts - a.ts ≤ gap
    · by_cases hm : matchTok b.label tok1 = true
      · simp only [motifScanJ, if_pos hgap, if_pos hm, pairEnum]
        rw [motifScanK_eq tok0 tok1 tok2 gap a b ha hm hgap rest hrest, ih hrest]
      · have hm' : matchTok b.label tok1 = false := by simpa using hm
        have hnone : ∀ c ∈ rest, motifCond tok0 tok1 tok2 gap a b c = none := by
          intro c hc2
          simp [motifCond, hm']
        simp only [motifScanJ, if_pos hgap, if_neg hm, pairEnum]
        rw [ih hrest, List.filterMap_eq_nil_iff.2 hnone]
    · have hall : ∀ x ∈ b :: rest, ¬(x.ts - a.ts ≤ gap) := by
        intro x hx
        rcases List.mem_cons.1 hx with h1 | h1
        · rw [h1]; exact hgap
        · have := hb x h1
          intro hle
          exact hgap (by linarith)
      simp only [motifScanJ, if_neg hgap]
      rw [pairEnum_eq_nil _ _ (fun x hx c hc2 => by simp [motifCond, hall x hx])]

theorem find_motif_eq (tok0 tok1 tok2 : Str) (gap : ℚ) :
    ∀ ev : List Event, ev.Pairwise (fun x y => x.ts ≤ y.ts) →
      find_motif ev tok0 tok1 tok2 gap = triEnum (motifCond tok0 tok1 tok2 gap) ev := by
  intro ev
  induction ev with
  | nil => intro _; rfl
  | cons a rest ih =>
    intro hp
    rw [List.pairwise_cons] at hp
    by_cases ha : matchTok a.label tok0 = true
    · simp only [find_motif, if_pos ha, triEnum]
      rw [motifScanJ_eq tok0 tok1 tok2 gap a ha rest hp.2, ih hp.2]
    · have ha' : matchTok a.label tok0 = false := by simpa using ha
      simp only [find_motif, if_neg ha, triEnum]
      rw [ih hp.2, pairEnum_eq_nil _ _ (fun b hb c hc2 => by simp [motifCond, ha'])]

/-- C5: on a time-sorted event list, `find_motif` reports exactly the index
triples `i < j < k` (in lexicographic index order: `i` over `range n`, `j`
over `range(i+1, n)`, `k` over `range(j+1, n)`) whose three labels match the
three motif tokens in order with `events[j].ts - events[i].ts ≤ gap_s` and
`events[k].ts - events[j].ts ≤ gap_s` — exhaustively, so one anchor may
appear in many hits. -/
theorem c5_motif_exhaustive (ev : List Event) (tok0 tok1 tok2 : Str) (gap : ℚ)
    (hsorted : ev.Pairwise (fun x y => x.ts ≤ y.ts)) :
    find_motif ev tok0 tok1 tok2 gap = triEnumIx (motifCond tok0 tok1 tok2 gap) ev :=
  (find_motif_eq tok0 tok1 tok2 gap ev hsorted).trans (triEnum_index _ ev)

/-- C5 witness: the claim's end-to-end example — events at t=0
(`wifi_beacon_5g_20`), t=1 (`ultra_18_21khz`), t=2.5 (`wifi_beacon_6g_20`)
with motif `[wifi5_20, ultra19, wifi6_20]`: the exhaustive characterisation
applies, `gap_s = 2` yields exactly the one hit (0, 1, 2.5), and
`gap_s = 1` yields no hit. -/
theorem c5_witness :
    ([⟨0, srcWifi, "wifi_beacon_5g_20".data, []⟩,
      ⟨1, srcAudio, "ultra_18_21khz".data, []⟩,
      ⟨5/2, srcWifi, "wifi_beacon_6g_20".data, []⟩] : List Event).Pairwise
        (fun x y => x.ts ≤ y.ts) ∧
    find_motif
      [⟨0, srcWifi, "wifi_beacon_5g_20".data, []⟩,
       ⟨1, srcAudio, "ultra_18_21khz".data, []⟩,
       ⟨5/2, srcWifi, "wifi_beacon_6g_20".data, []⟩]
      ("wifi5_20".data) ("ultra19".data) ("wifi6_20".data) 2 =
      triEnumIx (motifCond ("wifi5_20".data) ("ultra19".data) ("wifi6_20".data) 2)
        [⟨0, srcWifi, "wifi_beacon_5g_20".data, []⟩,
         ⟨1, srcAudio, "ultra_18_21khz".data, []⟩,
         ⟨5/2, srcWifi, "wifi_beacon_6g_20".data, []⟩] ∧
    find_motif
      [⟨0, srcWifi, "wifi_beacon_5g_20".data, []⟩,
       ⟨1, srcAudio, "ultra_18_21khz".data, []⟩,
       ⟨5/2, srcWifi, "wifi_beacon_6g_20".data, []⟩]
      ("wifi5_20".data) ("ultra19".data) ("wifi6_20".data) 2 =
      [(⟨0, srcWifi, "wifi_beacon_5g_20".data, []⟩,
        ⟨1, srcAudio, "ultra_18_21khz".data, []⟩,
        ⟨5/2, srcWifi, "wifi_beacon_6g_20".data, []⟩)] ∧
    find_motif
      [⟨0, srcWifi, "wifi_beacon_5g_20".data, []⟩,
       ⟨1, srcAudio, "ultra_18_21khz".data, []⟩,
       ⟨5/2, srcWifi, "wifi_beacon_6g_20".data, []⟩]
      ("wifi5_20".data) ("ultra19".data) ("wifi6_20".data) 1 = [] := by
  have hs : ([⟨0, srcWifi, "wifi_beacon_5g_20".data, []⟩,
      ⟨1, srcAudio, "ultra_18_21khz".data, []⟩,
      ⟨5/2, srcWifi, "wifi_beacon_6g_20".data, []⟩] : List Event).Pairwise
        (fun x y => x.ts ≤ y.ts) := by
    norm_num [List.pairwise_cons]
  have h1 : matchTok ("wifi_beacon_5g_20".data) ("wifi5_20".data) = true := by decide
  have h2 : matchTok ("ultra_18_21khz".data) ("ultra19".data) = true := by decide
  have h3 : matchTok ("wifi_beacon_6g_20".data) ("wifi6_20".data) = true := by decide
  have h4 : matchTok ("ultra_18_21khz".data) ("wifi5_20".data) = false := by decide
  have h5 : matchTok ("wifi_beacon_6g_20".data) ("wifi5_20".data) = false := by decide
  have h6 : matchTok ("wifi_beacon_6g_20".data) ("ultra19".data) = false := by decide
  refine ⟨hs, c5_motif_exhaustive _ _ _ _ _ hs, ?_, ?_⟩
  · norm_num [find_motif, motifScanJ, motifScanK, h1, h2, h3, h4, h5, h6]
  · norm_num [find_motif, motifScanJ, motifScanK, h1, h2, h4, h5]

end RFTiming
